import Mathlib

/-!
Shallow embedding of `react-prehydrate` (packages/react-prehydrate/src/create-prehydrate-value.tsx).

Strings of the JavaScript source are modelled as `List Char`; the synthesized
inline script's lookup function `f` is embedded as `findCookie`; the React
runtime state is modelled by explicit records (`CellState`, `Dom`) with the
write path `setCell`, the provider initializer `providerInit`, and the two
read hooks.
-/

/-- Embedding of the `PrehydrateValueConfig` interface from `types.ts`:
`cookie` (cookie name), `cssVar` (CSS custom property name), `defaultValue`. -/
structure PrehydrateValueConfig where
  cookie : List Char
  cssVar : List Char
  defaultValue : List Char

/-- JS `String.prototype.indexOf`: index of the first occurrence of `pat`
in the string, `none` when absent (JS returns `-1`). -/
def jsIndexOf (pat : List Char) : List Char → Option Nat
  | [] => if pat.isEmpty then some 0 else none
  | c :: rest =>
    if pat.isPrefixOf (c :: rest) then some 0 else (jsIndexOf pat rest).map (· + 1)

/-- JS `String.prototype.substring`: clamps both indices to the string length
and swaps them when given in descending order. -/
def jsSubstring (s : List Char) (a b : Nat) : List Char :=
  let a' := min a s.length
  let b' := min b s.length
  (s.take (max a' b')).drop (min a' b')

/-- Embedding of the lookup routine `f(n,d)` of the synthesized script:
`var c="; "+document.cookie`, `var p="; "+n+"="`, `i=c.indexOf(p)`,
`if(i<0)return d`, `var j=c.indexOf(";",i+1)`,
`return c.substring(i+p.length,j<0?c.length:j)`.
`cookieStr` stands for `document.cookie`. -/
def findCookie (cookieStr n d : List Char) : List Char :=
  let c := ("; ").toList ++ cookieStr
  let p := ("; ").toList ++ n ++ ['=']
  match jsIndexOf p c with
  | none => d
  | some i =>
    match (jsIndexOf [';'] (c.drop (i + 1))).map (· + (i + 1)) with
    | none => jsSubstring c (i + p.length) c.length
    | some j => jsSubstring c (i + p.length) j

/-- The fixed leading text of the synthesized script, up to and including the
`};` that closes the definition of `f` (the concatenation of the first nine
literals in `generatePrehydrateScript`'s array). -/
def scriptHeader : List Char :=
  ("(function()\x7bvar c=\"; \"+document.cookie,s=document.documentElement.style,f=function(n,d)\x7bvar p=\"; \"+n+\"=\",i=c.indexOf(p);if(i<0)return d;var j=c.indexOf(\";\",i+1);return c.substring(i+p.length,j<0?c.length:j)\x7d;").toList

/-- The fixed trailing text `}())` of the synthesized script. -/
def scriptFooter : List Char := ("\x7d())").toList

/-- One setter emitted per config:
`s.setProperty("<cssVar>",f("<cookie>","<defaultValue>"))`. -/
def setterOf (c : PrehydrateValueConfig) : List Char :=
  ("s.setProperty(\"").toList ++ c.cssVar ++ ("\",f(\"").toList ++ c.cookie
    ++ ("\",\"").toList ++ c.defaultValue ++ ("\"))").toList

/-- `Array.prototype.join(sep)`. -/
def joinSep (sep : List Char) : List (List Char) → List Char
  | [] => []
  | [x] => x
  | x :: y :: xs => x ++ sep ++ joinSep sep (y :: xs)

/-- Embedding of `generatePrehydrateScript`: the header text, the setters
joined by `";"`, and the footer, concatenated. -/
def generatePrehydrateScript (configs : List PrehydrateValueConfig) : List Char :=
  scriptHeader ++ joinSep [';'] (configs.map setterOf) ++ scriptFooter

/-- Number of (possibly overlapping) occurrences of `pat` as a contiguous
substring, i.e. the number of positions at which `pat` matches. -/
def countOccur (pat : List Char) : List Char → Nat
  | [] => 0
  | c :: rest => (if pat.isPrefixOf (c :: rest) then 1 else 0) + countOccur pat rest

/-- Characters `encodeURIComponent` leaves unescaped:
`A-Z a-z 0-9 - _ . ! ~ * ' ( )`. -/
def isUnreservedChar (ch : Char) : Bool :=
  (('A' ≤ ch && ch ≤ 'Z') || ('a' ≤ ch && ch ≤ 'z') || ('0' ≤ ch && ch ≤ '9')
    || ch == '-' || ch == '_' || ch == '.' || ch == '!' || ch == '~' || ch == '*'
    || ch == '\'' || ch == '(' || ch == ')')

/-- UTF-8 byte sequence of one character. -/
def utf8Bytes (ch : Char) : List Nat :=
  let n := ch.toNat
  if n < 0x80 then [n]
  else if n < 0x800 then [0xC0 + n / 64, 0x80 + n % 64]
  else if n < 0x10000 then [0xE0 + n / 4096, 0x80 + (n / 64) % 64, 0x80 + n % 64]
  else [0xF0 + n / 262144, 0x80 + (n / 4096) % 64, 0x80 + (n / 64) % 64, 0x80 + n % 64]

/-- Hexadecimal digits used by percent-escapes (uppercase, as in JS). -/
def hexDigits : List Char := ("0123456789ABCDEF").toList

/-- Hexadecimal digit character for a value below 16. -/
def hexDigitChar (n : Nat) : Char := hexDigits.getD n '0'

/-- Percent-escape of one byte, `%XX`. -/
def percentByte (b : Nat) : List Char := ['%', hexDigitChar (b / 16), hexDigitChar (b % 16)]

/-- JS `encodeURIComponent`: unreserved characters kept verbatim, every other
character replaced by the percent-escapes of its UTF-8 bytes. -/
def encodeURIComponent (s : List Char) : List Char :=
  (s.map (fun ch =>
    if isUnreservedChar ch then [ch] else ((utf8Bytes ch).map percentByte).flatten)).flatten

/-- The exact string assigned to `document.cookie` by the `set` callback:
`` `${config.cookie}=${encodeURIComponent(next)};path=/;max-age=31536000;SameSite=Lax` ``. -/
def setCookieString (cookie next : List Char) : List Char :=
  cookie ++ '=' :: encodeURIComponent next
    ++ (";path=/;max-age=31536000;SameSite=Lax").toList

/-- First binding of a key in an association list (used for both the CSS
custom properties of `documentElement.style` and the cookie jar). -/
def assocGet (m : List (List Char × List Char)) (k : List Char) : Option (List Char) :=
  match m with
  | [] => none
  | (k', v) :: rest => if k' = k then some v else assocGet rest k

/-- Update the first binding of a key, or append a new binding. -/
def assocSet (m : List (List Char × List Char)) (k v : List Char) :
    List (List Char × List Char) :=
  match m with
  | [] => [(k, v)]
  | (k', v') :: rest => if k' = k then (k', v) :: rest else (k', v') :: assocSet rest k v

/-- Browser semantics of an assignment `document.cookie = s`: the text before
the first `;` is the `name=value` pair; the named cookie is created or updated
in the jar (attribute segments after the first `;` do not affect the value). -/
def cookieAssign (jar : List (List Char × List Char)) (s : List Char) :
    List (List Char × List Char) :=
  let pair := s.takeWhile (fun ch => ch != ';')
  let k := pair.takeWhile (fun ch => ch != '=')
  let v := (pair.dropWhile (fun ch => ch != '=')).drop 1
  assocSet jar k v

/-- Rendering of the cookie jar as the `document.cookie` read string:
`name=value` pairs joined by `"; "`. -/
def renderCookieJar (jar : List (List Char × List Char)) : List Char :=
  joinSep (("; ").toList) (jar.map (fun e => e.1 ++ '=' :: e.2))

/-- Browser document state visible to this library: the CSS custom properties
on `documentElement.style` and the cookie jar. -/
structure Dom where
  cssVars : List (List Char × List Char)
  jar : List (List Char × List Char)

/-- Per-provider React state: the `useState` value and the `mounted` flag of
`useHydratedValue` (false until the mount effect has fired). -/
structure CellState where
  currentValue : List Char
  mounted : Bool

/-- The `set` callback of the Provider: `setValue(next)`,
`style.setProperty(cssVar, next)`, `document.cookie = ...` — returning the
updated React state and the updated document. -/
def setCell (cfg : PrehydrateValueConfig) (st : CellState) (dom : Dom)
    (next : List Char) : CellState × Dom :=
  (⟨next, st.mounted⟩,
   ⟨assocSet dom.cssVars cfg.cssVar next,
    cookieAssign dom.jar (setCookieString cfg.cookie next)⟩)

/-- `style.getPropertyValue(k)`: the empty string when the property is unset. -/
def getPropertyValue (vars : List (List Char × List Char)) (k : List Char) : List Char :=
  (assocGet vars k).getD []

/-- The `useState` initializer of the Provider: `defaultValue` when
`typeof document === "undefined"` (non-interactive rendering, `none`),
otherwise `getPropertyValue(cssVar) || defaultValue` (the empty string is
falsy in JS). -/
def providerInit (cfg : PrehydrateValueConfig) (domOpt : Option Dom) : List Char :=
  match domOpt with
  | none => cfg.defaultValue
  | some dom =>
    let current := getPropertyValue dom.cssVars cfg.cssVar
    if current.isEmpty then cfg.defaultValue else current

/-- Freshly instantiated provider state: seeded value, not yet mounted. -/
def initCell (cfg : PrehydrateValueConfig) (domOpt : Option Dom) : CellState :=
  ⟨providerInit cfg domOpt, false⟩

/-- The one-shot mount transition (`useEffect(() => setMounted(true), [])`). -/
def mountCell (st : CellState) : CellState := ⟨st.currentValue, true⟩

/-- Value read by `useValue`: always the current context value. -/
def useValueRead (st : CellState) : List Char := st.currentValue

/-- Value read by `useHydratedValue`: `null` until mounted, then the value. -/
def useHydratedValueRead (st : CellState) : Option (List Char) :=
  if st.mounted then some st.currentValue else none

/-- The message of the error thrown by `useContext_` outside a Provider. -/
def contextError (cfg : PrehydrateValueConfig) : List Char :=
  ("useValue/useHydratedValue must be used within a <Provider> for \"").toList
    ++ cfg.cookie ++ ("\"").toList

/-- `useContext_`: throws (models as `Except.error`) when no enclosing
Provider supplies a context value. -/
def useContextOr (cfg : PrehydrateValueConfig) (ctx : Option CellState) :
    Except (List Char) CellState :=
  match ctx with
  | none => Except.error (contextError cfg)
  | some st => Except.ok st

/-- The `useValue` hook: context value, or the thrown configuration error. -/
def useValueHook (cfg : PrehydrateValueConfig) (ctx : Option CellState) :
    Except (List Char) (List Char) :=
  (useContextOr cfg ctx).map useValueRead

/-- The `useHydratedValue` hook: gated value, or the thrown error. -/
def useHydratedValueHook (cfg : PrehydrateValueConfig) (ctx : Option CellState) :
    Except (List Char) (Option (List Char)) :=
  (useContextOr cfg ctx).map useHydratedValueRead

/-- Denotation of executing the synthesized script against a cookie string:
each config's CSS variable is set to `f(cookie, defaultValue)`, in order. -/
def runPrehydrateScript (configs : List PrehydrateValueConfig) (cookieStr : List Char)
    (cssVars : List (List Char × List Char)) : List (List Char × List Char) :=
  configs.foldl
    (fun vars c => assocSet vars c.cssVar (findCookie cookieStr c.cookie c.defaultValue))
    cssVars

/-- Round trip of one value: `set x` on an empty document, render the cookie
jar as the store buffer, execute the synthesized script against it, and seed
a fresh Provider from the resulting CSS variable. -/
def roundTrip (cfg : PrehydrateValueConfig) (x : List Char) : List Char :=
  let dom0 : Dom := ⟨[], []⟩
  let res := setCell cfg ⟨cfg.defaultValue, false⟩ dom0 x
  let buffer := renderCookieJar res.2.jar
  let vars := runPrehydrateScript [cfg] buffer []
  providerInit cfg (some ⟨vars, res.2.jar⟩)

/-- Normalized cookie buffer of a jar: the concatenation of one block
`"; " ++ name ++ "=" ++ value` per entry — equal to `"; " + document.cookie`
for a nonempty jar. -/
def cookieEntries : List (List Char × List Char) → List Char
  | [] => []
  | (n, v) :: rest => ';' :: ' ' :: (n ++ '=' :: v) ++ cookieEntries rest

/-- Well-formedness of one stored cookie entry: the name is free of the
delimiters `;` and `=`, the value free of `;`. -/
def wfEntry (e : List Char × List Char) : Prop :=
  ';' ∉ e.1 ∧ '=' ∉ e.1 ∧ ';' ∉ e.2

/-- Well-formedness of a whole jar. -/
def wfEntries (l : List (List Char × List Char)) : Prop := ∀ e ∈ l, wfEntry e

instance (e : List Char × List Char) : Decidable (wfEntry e) := by
  unfold wfEntry; infer_instance

instance (l : List (List Char × List Char)) : Decidable (wfEntries l) := by
  unfold wfEntries; infer_instance

/-- Split a string at every occurrence of a character (the separators are not
kept; `n` separators yield `n + 1` segments). -/
def splitOnChar (ch : Char) : List Char → List (List Char)
  | [] => [[]]
  | c :: rest =>
    let r := splitOnChar ch rest
    if c = ch then [] :: r
    else (c :: r.headD []) :: r.tail

/-- Concrete descriptor used by witnesses: cookie `sw`, CSS variable `--sw`,
default `280`. -/
def cfgSW : PrehydrateValueConfig := ⟨("sw").toList, ("--sw").toList, ("280").toList⟩

/-- Cleanliness of one config field for the occurrence counts of C6: the
field contains none of the three counted patterns. -/
def fieldClean (s : List Char) : Prop :=
  countOccur (("document.cookie").toList) s = 0 ∧
  countOccur (("s.setProperty(").toList) s = 0 ∧
  countOccur (("f=function(").toList) s = 0

/-- Cleanliness of a whole config. -/
def configClean (c : PrehydrateValueConfig) : Prop :=
  fieldClean c.cssVar ∧ fieldClean c.cookie ∧ fieldClean c.defaultValue

instance (s : List Char) : Decidable (fieldClean s) := by
  unfold fieldClean; infer_instance

instance (c : PrehydrateValueConfig) : Decidable (configClean c) := by
  unfold configClean; infer_instance

/-! ### Generic lemmas about the string primitives -/

lemma isPrefixOf_eq_true_iff (l₁ l₂ : List Char) : l₁.isPrefixOf l₂ = true ↔ l₁ <+: l₂ :=
  List.isPrefixOf_iff_prefix

lemma semiSpace_toList : ("; ").toList = [';', ' '] := rfl

/-- `jsIndexOf` returns the position of a match that no smaller position has. -/
lemma jsIndexOf_eq_some_of (pat s : List Char) (i : Nat)
    (hm : pat <+: s.drop i)
    (hmin : ∀ j, j < i → ¬ pat <+: s.drop j) :
    jsIndexOf pat s = some i := by
  induction s generalizing i with
  | nil =>
    have hp : pat = [] := List.prefix_nil.mp (by simpa using hm)
    have hi : i = 0 := by
      by_contra h
      exact hmin 0 (Nat.pos_of_ne_zero h) (by simp [hp])
    subst hp; subst hi
    simp [jsIndexOf]
  | cons c rest ih =>
    by_cases hp : pat <+: (c :: rest)
    · have hi : i = 0 := by
        by_contra h
        exact hmin 0 (Nat.pos_of_ne_zero h) (by simpa using hp)
      subst hi
      have hb : pat.isPrefixOf (c :: rest) = true := (isPrefixOf_eq_true_iff _ _).mpr hp
      simp [jsIndexOf, hb]
    · have hi : i ≠ 0 := by
        intro h; subst h; exact hp (by simpa using hm)
      obtain ⟨i', rfl⟩ : ∃ i', i = i' + 1 := ⟨i - 1, by omega⟩
      have hm' : pat <+: rest.drop i' := by simpa using hm
      have hmin' : ∀ j, j < i' → ¬ pat <+: rest.drop j := by
        intro j hj hc
        exact hmin (j + 1) (by omega) (by simpa using hc)
      have hb : ¬ pat.isPrefixOf (c :: rest) = true := by
        intro h; exact hp ((isPrefixOf_eq_true_iff _ _).mp h)
      simp [jsIndexOf, hb, ih i' hm' hmin']

/-- `jsIndexOf` returns `none` when a nonempty pattern matches nowhere. -/
lemma jsIndexOf_eq_none_of (pat s : List Char) (hne : pat ≠ [])
    (h : ∀ j, ¬ pat <+: s.drop j) :
    jsIndexOf pat s = none := by
  induction s with
  | nil =>
    have : ¬ pat.isEmpty := by
      cases pat with
      | nil => exact absurd rfl hne
      | cons a l => simp [List.isEmpty]
    simp [jsIndexOf, this]
  | cons c rest ih =>
    have hb : ¬ pat.isPrefixOf (c :: rest) = true := by
      intro hx
      exact h 0 (by simpa using (isPrefixOf_eq_true_iff _ _).mp hx)
    have h' : ∀ j, ¬ pat <+: rest.drop j := by
      intro j hc
      exact h (j + 1) (by simpa using hc)
    simp [jsIndexOf, hb, ih h']

/-- A pattern starting with `;` matches nowhere strictly inside a `;`-free
region `u` followed by anything. -/
lemma no_semi_match (u rest pat2 : List Char) (hu : ';' ∉ u) (j : Nat) (hj : j < u.length) :
    ¬ (';' :: pat2) <+: ((u ++ rest).drop j) := by
  intro h
  have hd : (u ++ rest).drop j = u[j] :: (u.drop (j + 1) ++ rest) := by
    rw [List.drop_append_eq_append_drop, Nat.sub_eq_zero_of_le (le_of_lt hj),
      List.drop_eq_getElem_cons hj, List.drop_zero, List.cons_append]
  rw [hd, List.cons_prefix_cons] at h
  exact hu (by rw [h.1]; exact List.getElem_mem hj)

/-- Matching `name=` against a well-formed entry `name'=value...` forces the
names to coincide: the `=` marker pins down the name boundary. -/
lemma eq_of_marker_match (n : List Char) (hn : '=' ∉ n) :
    ∀ (m w : List Char), '=' ∉ m → ((n ++ ['=']) <+: (m ++ '=' :: w)) → n = m := by
  induction n with
  | nil =>
    intro m w hm h
    cases m with
    | nil => rfl
    | cons b m' =>
      simp only [List.nil_append, List.cons_append, List.cons_prefix_cons] at h
      simp only [List.mem_cons, not_or] at hm
      exact absurd h.1 hm.1
  | cons a n' ih =>
    intro m w hm h
    cases m with
    | nil =>
      simp only [List.cons_append, List.nil_append, List.cons_prefix_cons] at h
      simp only [List.mem_cons, not_or] at hn
      exact absurd h.1.symm hn.1
    | cons b m' =>
      simp only [List.cons_append, List.cons_prefix_cons] at h
      have hn' : '=' ∉ n' := fun hx => hn (List.mem_cons_of_mem a hx)
      have hm' : '=' ∉ m' := fun hx => hm (List.mem_cons_of_mem b hx)
      rw [h.1, ih hn' m' w hm' h.2]

lemma cookieEntries_append (a b : List (List Char × List Char)) :
    cookieEntries (a ++ b) = cookieEntries a ++ cookieEntries b := by
  induction a with
  | nil => simp [cookieEntries]
  | cons e rest ih =>
    obtain ⟨n, v⟩ := e
    simp [cookieEntries, ih]

lemma cookieEntries_cons (n v : List Char) (rest : List (List Char × List Char)) :
    cookieEntries ((n, v) :: rest) = ';' :: ' ' :: (n ++ '=' :: v) ++ cookieEntries rest := rfl

/-- For a nonempty jar, the normalized buffer `"; " + document.cookie` is
exactly the concatenation of the per-entry blocks. -/
lemma cookieEntries_eq_renderCookieJar (l : List (List Char × List Char)) (hl : l ≠ []) :
    ';' :: ' ' :: renderCookieJar l = cookieEntries l := by
  induction l with
  | nil => exact absurd rfl hl
  | cons e rest ih =>
    obtain ⟨n, v⟩ := e
    cases rest with
    | nil => simp [renderCookieJar, joinSep, cookieEntries]
    | cons e' rest' =>
      have hr : renderCookieJar ((n, v) :: e' :: rest') =
          (n ++ '=' :: v) ++ ("; ").toList ++ renderCookieJar (e' :: rest') := by
        simp [renderCookieJar, joinSep]
      rw [cookieEntries_cons, hr, ← ih (by simp)]
      simp [semiSpace_toList]

lemma jsSubstring_suffix_eq (x v : List Char) :
    jsSubstring (x ++ v) x.length (x ++ v).length = v := by
  have h₁ : x.length ≤ (x ++ v).length := by simp
  simp only [jsSubstring]
  rw [min_eq_left h₁, min_self, max_eq_right h₁, List.take_length, min_eq_left h₁,
    List.drop_left]

lemma jsSubstring_mid_eq (x v y : List Char) :
    jsSubstring (x ++ v ++ y) x.length (x.length + v.length) = v := by
  have h₁ : x.length ≤ (x ++ v ++ y).length := by simp
  have h₂ : x.length + v.length ≤ (x ++ v ++ y).length := by simp
  simp only [jsSubstring]
  rw [min_eq_left h₁, min_eq_left h₂, max_eq_right (by omega : x.length ≤ x.length + v.length),
    min_eq_left (by omega : x.length ≤ x.length + v.length)]
  have ht : (x ++ v ++ y).take (x.length + v.length) = x ++ v := by
    have := List.take_left (x ++ v) y
    simpa using this
  rw [ht, List.drop_left]

/-- The search pattern `"; " ++ n ++ "="` matches nowhere strictly inside the
blocks of a well-formed jar that stores no entry named `n`, whatever text
follows the blocks. -/
lemma cookieEntries_no_match (n : List Char) (hn₂ : '=' ∉ n) :
    ∀ (entries : List (List Char × List Char)) (tail : List Char),
      wfEntries entries → (∀ e ∈ entries, e.1 ≠ n) →
      ∀ j, j < (cookieEntries entries).length →
        ¬ (';' :: ' ' :: (n ++ ['='])) <+: ((cookieEntries entries ++ tail).drop j) := by
  intro entries
  induction entries with
  | nil =>
    intro tail _ _ j hj
    simp [cookieEntries] at hj
  | cons e rest ih =>
    obtain ⟨m, w⟩ := e
    intro tail hwf habs j hj h
    have hwfe : ';' ∉ m ∧ '=' ∉ m ∧ ';' ∉ w := hwf (m, w) (List.mem_cons_self _ _)
    have hB : cookieEntries ((m, w) :: rest) ++ tail
        = (';' :: ' ' :: (m ++ '=' :: w)) ++ (cookieEntries rest ++ tail) := by
      rw [cookieEntries_cons]; simp
    have hlen : (cookieEntries ((m, w) :: rest)).length
        = (';' :: ' ' :: (m ++ '=' :: w)).length + (cookieEntries rest).length := by
      have hc := congrArg List.length hB
      simp only [List.length_append] at hc
      omega
    rcases Nat.lt_or_ge j (';' :: ' ' :: (m ++ '=' :: w)).length with hlt | hge
    · rcases Nat.eq_zero_or_pos j with hj0 | hjpos
      · subst hj0
        rw [hB, List.drop_zero] at h
        simp only [List.cons_append] at h
        rw [List.cons_prefix_cons] at h
        obtain ⟨-, h⟩ := h
        rw [List.cons_prefix_cons] at h
        obtain ⟨-, h⟩ := h
        have h' : (n ++ ['=']) <+: (m ++ '=' :: (w ++ (cookieEntries rest ++ tail))) := by
          simpa using h
        exact habs (m, w) (List.mem_cons_self _ _)
          (eq_of_marker_match n hn₂ m _ hwfe.2.1 h').symm
      · obtain ⟨j', rfl⟩ : ∃ j', j = j' + 1 := ⟨j - 1, by omega⟩
        rw [hB] at h
        have hd : ((';' :: ' ' :: (m ++ '=' :: w)) ++ (cookieEntries rest ++ tail)).drop (j' + 1)
            = ((' ' :: (m ++ '=' :: w)) ++ (cookieEntries rest ++ tail)).drop j' := by
          simp
        rw [hd] at h
        have hu : ';' ∉ (' ' :: (m ++ '=' :: w)) := by
          simp only [List.mem_cons, List.mem_append, not_or]
          exact ⟨by decide, hwfe.1, by decide, hwfe.2.2⟩
        have hju : j' < (' ' :: (m ++ '=' :: w)).length := by
          simp only [List.length_cons] at hlt ⊢
          omega
        exact no_semi_match _ _ _ hu j' hju h
    · rw [hB, List.drop_append_eq_append_drop,
        List.drop_eq_nil_of_le hge, List.nil_append] at h
      have hwf' : wfEntries rest := fun e he => hwf e (List.mem_cons_of_mem _ he)
      have habs' : ∀ e ∈ rest, e.1 ≠ n := fun e he => habs e (List.mem_cons_of_mem _ he)
      exact ih tail hwf' habs' _ (by omega) h

/-- `findCookie` returns the default when the pattern occurs nowhere. -/
lemma findCookie_eq_default (cookieStr n d : List Char)
    (h : jsIndexOf (("; ").toList ++ n ++ ['=']) (("; ").toList ++ cookieStr) = none) :
    findCookie cookieStr n d = d := by
  simp only [findCookie, h]

/-- The lookup falls back to the default when no entry of a well-formed jar is
named `n`: a stored name having `n` as a strict substring, prefix or suffix is
never matched. -/
lemma findCookie_absent (entries : List (List Char × List Char)) (n d : List Char)
    (hwf : wfEntries entries) (hn₂ : '=' ∉ n)
    (habs : ∀ e ∈ entries, e.1 ≠ n) :
    findCookie (renderCookieJar entries) n d = d := by
  apply findCookie_eq_default
  apply jsIndexOf_eq_none_of _ _ (by simp)
  intro j h
  have hP : ("; ").toList ++ n ++ ['='] = ';' :: ' ' :: (n ++ ['=']) := by
    simp [semiSpace_toList]
  rw [hP] at h
  cases entries with
  | nil =>
    have h1 := h.length_le
    simp [renderCookieJar, joinSep, semiSpace_toList] at h1
    omega
  | cons e rest =>
    have hC : ("; ").toList ++ renderCookieJar (e :: rest) = cookieEntries (e :: rest) := by
      rw [semiSpace_toList, ← cookieEntries_eq_renderCookieJar (e :: rest) (by simp)]
      simp
    rw [hC] at h
    rcases Nat.lt_or_ge j (cookieEntries (e :: rest)).length with hlt | hge
    · have hcm := cookieEntries_no_match n hn₂ (e :: rest) [] hwf habs j hlt
      rw [List.append_nil] at hcm
      exact hcm h
    · have h1 := h.length_le
      simp only [List.length_drop, List.length_cons, List.length_append] at h1
      omega

/-- Branch of `findCookie` taken when the pattern matches at `i` and no
further `;` follows: extraction runs to the end of the buffer. -/
lemma findCookie_eq_end (cookieStr n d : List Char) (i : Nat)
    (hidx : jsIndexOf (("; ").toList ++ n ++ ['=']) (("; ").toList ++ cookieStr) = some i)
    (hjs : jsIndexOf [';'] ((("; ").toList ++ cookieStr).drop (i + 1)) = none) :
    findCookie cookieStr n d
      = jsSubstring (("; ").toList ++ cookieStr)
          (i + (("; ").toList ++ n ++ ['=']).length)
          (("; ").toList ++ cookieStr).length := by
  simp only [findCookie, hidx, hjs, Option.map_none']

/-- Branch of `findCookie` taken when the pattern matches at `i` and the next
`;` is at offset `L` of the remainder starting at `i + 1`. -/
lemma findCookie_eq_mid (cookieStr n d : List Char) (i L : Nat)
    (hidx : jsIndexOf (("; ").toList ++ n ++ ['=']) (("; ").toList ++ cookieStr) = some i)
    (hjs : jsIndexOf [';'] ((("; ").toList ++ cookieStr).drop (i + 1)) = some L) :
    findCookie cookieStr n d
      = jsSubstring (("; ").toList ++ cookieStr)
          (i + (("; ").toList ++ n ++ ['=']).length)
          (L + (i + 1)) := by
  simp only [findCookie, hidx, hjs, Option.map_some']

/-- The lookup returns the value of the first entry named `n` of a well-formed
jar, verbatim: the substring between the end of the match and the next `;`,
or the end of the buffer for the last entry. -/
lemma findCookie_found (pre post : List (List Char × List Char)) (n v d : List Char)
    (hwf : wfEntries (pre ++ (n, v) :: post))
    (hpre : ∀ e ∈ pre, e.1 ≠ n)
    (hn₁ : ';' ∉ n) (hn₂ : '=' ∉ n) :
    findCookie (renderCookieJar (pre ++ (n, v) :: post)) n d = v := by
  have hv : ';' ∉ v := (hwf (n, v) (by simp)).2.2
  have hwfpre : wfEntries pre := fun e he => hwf e (List.mem_append_left _ he)
  have hP : ("; ").toList ++ n ++ ['='] = ';' :: ' ' :: (n ++ ['=']) := by
    simp [semiSpace_toList]
  have hC : ("; ").toList ++ renderCookieJar (pre ++ (n, v) :: post)
      = cookieEntries pre ++ ((';' :: ' ' :: (n ++ '=' :: v)) ++ cookieEntries post) := by
    have h1 : ("; ").toList ++ renderCookieJar (pre ++ (n, v) :: post)
        = cookieEntries (pre ++ (n, v) :: post) := by
      rw [semiSpace_toList, ← cookieEntries_eq_renderCookieJar _ (by simp)]
      simp
    rw [h1, cookieEntries_append, cookieEntries_cons]
  have hu : ';' ∉ (' ' :: (n ++ '=' :: v)) := by
    simp only [List.mem_cons, List.mem_append, not_or]
    exact ⟨by decide, hn₁, by decide, hv⟩
  have hidx : jsIndexOf (("; ").toList ++ n ++ ['=']) (("; ").toList
      ++ renderCookieJar (pre ++ (n, v) :: post)) = some (cookieEntries pre).length := by
    rw [hP, hC]
    apply jsIndexOf_eq_some_of
    · rw [List.drop_left]
      refine ⟨v ++ cookieEntries post, ?_⟩
      simp
    · intro j hj
      exact cookieEntries_no_match n hn₂ pre _ hwfpre hpre j hj
  have hdrop1 : (("; ").toList ++ renderCookieJar (pre ++ (n, v) :: post)).drop
      ((cookieEntries pre).length + 1) = (' ' :: (n ++ '=' :: v)) ++ cookieEntries post := by
    rw [hC, List.drop_append_eq_append_drop, List.drop_eq_nil_of_le (by omega),
      List.nil_append]
    have h2 : (cookieEntries pre).length + 1 - (cookieEntries pre).length = 1 := by omega
    rw [h2]
    simp [List.cons_append]
  cases post with
  | nil =>
    have hjs : jsIndexOf [';'] ((("; ").toList
        ++ renderCookieJar (pre ++ (n, v) :: [])).drop ((cookieEntries pre).length + 1))
        = none := by
      rw [hdrop1]
      simp only [cookieEntries, List.append_nil]
      apply jsIndexOf_eq_none_of _ _ (by simp)
      intro j h
      rcases Nat.lt_or_ge j (' ' :: (n ++ '=' :: v)).length with hlt | hge
      · exact no_semi_match _ [] [] hu j hlt (by simpa using h)
      · have h1 := h.length_le
        simp only [List.length_drop, List.length_cons] at h1 hge
        omega
    rw [findCookie_eq_end _ _ _ _ hidx hjs, hP, hC]
    have hshape : cookieEntries pre ++ ((';' :: ' ' :: (n ++ '=' :: v)) ++ cookieEntries ([] : List (List Char × List Char)))
        = (cookieEntries pre ++ (';' :: ' ' :: (n ++ ['=']))) ++ v := by
      simp [cookieEntries, List.append_assoc]
    rw [hshape, ← List.length_append]
    exact jsSubstring_suffix_eq _ v
  | cons e' post' =>
    obtain ⟨a, b⟩ := e'
    have hjs : jsIndexOf [';'] ((("; ").toList
        ++ renderCookieJar (pre ++ (n, v) :: (a, b) :: post')).drop ((cookieEntries pre).length + 1))
        = some (' ' :: (n ++ '=' :: v)).length := by
      rw [hdrop1]
      apply jsIndexOf_eq_some_of
      · rw [List.drop_left, cookieEntries_cons]
        exact ⟨' ' :: ((a ++ '=' :: b) ++ cookieEntries post'), by simp⟩
      · intro j hj
        exact no_semi_match _ _ _ hu j hj
    rw [findCookie_eq_mid _ _ _ _ _ hidx hjs, hP, hC]
    have hshape : cookieEntries pre ++ ((';' :: ' ' :: (n ++ '=' :: v)) ++ cookieEntries ((a, b) :: post'))
        = (cookieEntries pre ++ (';' :: ' ' :: (n ++ ['=']))) ++ v ++ cookieEntries ((a, b) :: post') := by
      simp [List.append_assoc]
    have hb2 : (' ' :: (n ++ '=' :: v)).length + ((cookieEntries pre).length + 1)
        = (cookieEntries pre ++ (';' :: ' ' :: (n ++ ['=']))).length + v.length := by
      simp only [List.length_append, List.length_cons, List.length_nil]
      omega
    have ha2 : (cookieEntries pre).length + (';' :: ' ' :: (n ++ ['='])).length
        = (cookieEntries pre ++ (';' :: ' ' :: (n ++ ['=']))).length := by
      simp
    rw [hshape, hb2, ha2]
    exact jsSubstring_mid_eq _ v _

/-- C1: for every well-formed store buffer (a jar of delimiter-bounded
`name=value` entries) and queried name `n`, the synthesized lookup returns the
value of the exact, delimiter-bounded entry named `n` — the substring between
the end of the match and the next `;` or end of buffer, verbatim — when such
an entry exists (the first one), and returns the default when no entry is
named `n`: a stored name that contains `n` only as a strict substring, prefix
or suffix never matches. -/
theorem find_boundary_matching (entries : List (List Char × List Char)) (n d : List Char)
    (hwf : wfEntries entries) (hn₁ : ';' ∉ n) (hn₂ : '=' ∉ n) :
    ((∀ e ∈ entries, e.1 ≠ n) → findCookie (renderCookieJar entries) n d = d) ∧
    (∀ pre v post, entries = pre ++ (n, v) :: post → (∀ e ∈ pre, e.1 ≠ n) →
      findCookie (renderCookieJar entries) n d = v) := by
  constructor
  · intro habs
    exact findCookie_absent entries n d hwf hn₂ habs
  · intro pre v post hsplit hpre
    subst hsplit
    exact findCookie_found pre post n v d hwf hpre hn₁ hn₂

/-- Witness for C1 at the spec's concrete examples: buffer `x-sw=999; sw=300`
with query `sw` yields `300`; buffers `xsw=999` and `my-sw=999; other=1`
yield the default `280`. -/
theorem find_boundary_matching_witness :
    findCookie (renderCookieJar [(("x-sw").toList, ("999").toList), (("sw").toList, ("300").toList)])
      (("sw").toList) (("280").toList) = ("300").toList ∧
    findCookie (renderCookieJar [(("xsw").toList, ("999").toList)])
      (("sw").toList) (("280").toList) = ("280").toList ∧
    findCookie (renderCookieJar [(("my-sw").toList, ("999").toList), (("other").toList, ("1").toList)])
      (("sw").toList) (("280").toList) = ("280").toList := by
  refine ⟨?_, ?_, ?_⟩
  · exact (find_boundary_matching
      [(("x-sw").toList, ("999").toList), (("sw").toList, ("300").toList)]
      (("sw").toList) (("280").toList) (by decide) (by decide) (by decide)).2
      [(("x-sw").toList, ("999").toList)] (("300").toList) [] (by decide) (by decide)
  · exact (find_boundary_matching [(("xsw").toList, ("999").toList)]
      (("sw").toList) (("280").toList) (by decide) (by decide) (by decide)).1 (by decide)
  · exact (find_boundary_matching
      [(("my-sw").toList, ("999").toList), (("other").toList, ("1").toList)]
      (("sw").toList) (("280").toList) (by decide) (by decide) (by decide)).1 (by decide)

/-- C8: the synthesized lookup is a total function that degrades to the
default and never raises: the empty buffer yields exactly `defaultValue` for
any query, any well-formed buffer without an entry named `n` (store miss)
yields exactly `defaultValue`, and a final entry with no trailing `;` is
terminated by the end of the buffer. -/
theorem find_default_fallback_never_raises (n d : List Char) :
    findCookie [] n d = d ∧
    (∀ entries, wfEntries entries → '=' ∉ n → (∀ e ∈ entries, e.1 ≠ n) →
      findCookie (renderCookieJar entries) n d = d) ∧
    (∀ pre v, wfEntries (pre ++ [(n, v)]) → (∀ e ∈ pre, e.1 ≠ n) →
      ';' ∉ n → '=' ∉ n →
      findCookie (renderCookieJar (pre ++ [(n, v)])) n d = v) := by
  refine ⟨?_, ?_, ?_⟩
  · apply findCookie_eq_default
    apply jsIndexOf_eq_none_of _ _ (by simp)
    intro j h
    have h1 := h.length_le
    simp [semiSpace_toList] at h1
    omega
  · intro entries hwf hn₂ habs
    exact findCookie_absent entries n d hwf hn₂ habs
  · intro pre v hwf hpre hn₁ hn₂
    exact findCookie_found pre [] n v d hwf hpre hn₁ hn₂

/-- Witness for C8: empty buffer with default `280` yields `280`; the
nonempty buffer `other=1; xsw=999` lacking the queried name `sw` yields the
default `280`; and the buffer `sw=300` (no trailing delimiter) yields `300`
for query `sw`. -/
theorem find_default_fallback_witness :
    findCookie [] (("sw").toList) (("280").toList) = ("280").toList ∧
    findCookie (renderCookieJar [(("other").toList, ("1").toList),
        (("xsw").toList, ("999").toList)])
      (("sw").toList) (("280").toList) = ("280").toList ∧
    findCookie (renderCookieJar [(("sw").toList, ("300").toList)])
      (("sw").toList) (("280").toList) = ("300").toList := by
  refine ⟨(find_default_fallback_never_raises (("sw").toList) (("280").toList)).1, ?_, ?_⟩
  · exact (find_default_fallback_never_raises (("sw").toList) (("280").toList)).2.1
      [(("other").toList, ("1").toList), (("xsw").toList, ("999").toList)]
      (by decide) (by decide) (by decide)
  · exact (find_default_fallback_never_raises (("sw").toList) (("280").toList)).2.2
      [] (("300").toList) (by decide) (by decide) (by decide) (by decide)

/-- C3: `useHydratedValue` reads `null` during non-interactive rendering and
at every read before the mount transition has fired (even right after a
`set`), reads the real current value once mounted, and a `set x` issued
before mount is still reflected — the value reads `x` — after mounting. -/
theorem hydration_gating (cfg : PrehydrateValueConfig) (domOpt : Option Dom)
    (st : CellState) (dom : Dom) (x : List Char) :
    useHydratedValueRead (initCell cfg domOpt) = none ∧
    (st.mounted = false → useHydratedValueRead st = none) ∧
    (st.mounted = false → useHydratedValueRead (setCell cfg st dom x).1 = none) ∧
    (st.mounted = true → useHydratedValueRead st = some st.currentValue) ∧
    useHydratedValueRead (mountCell (setCell cfg st dom x).1) = some x := by
  refine ⟨rfl, ?_, ?_, ?_, rfl⟩
  · intro h; simp [useHydratedValueRead, h]
  · intro h; simp [useHydratedValueRead, setCell, h]
  · intro h; simp [useHydratedValueRead, h]

/-- Witness for C3: fresh unmounted state reads `none`; after `set "320"` and
the mount transition the read is `some "320"`. -/
theorem hydration_gating_witness :
    useHydratedValueRead ⟨("280").toList, false⟩ = none ∧
    useHydratedValueRead
      (mountCell (setCell cfgSW ⟨("280").toList, false⟩ ⟨[], []⟩ (("320").toList)).1)
      = some (("320").toList) :=
  ⟨(hydration_gating cfgSW none ⟨("280").toList, false⟩ ⟨[], []⟩ (("320").toList)).2.1 rfl,
   (hydration_gating cfgSW none ⟨("280").toList, false⟩ ⟨[], []⟩ (("320").toList)).2.2.2.2⟩

/-- C4: `useValue` always yields a string (never null): the Provider seeds
`defaultValue` when there is no live document, the CSS variable's value when
it is present and nonempty, and `defaultValue` otherwise. -/
theorem presentation_always_string (cfg : PrehydrateValueConfig) (dom : Dom)
    (domOpt : Option Dom) :
    useValueRead (initCell cfg domOpt) = providerInit cfg domOpt ∧
    providerInit cfg none = cfg.defaultValue ∧
    (∀ v, assocGet dom.cssVars cfg.cssVar = some v → v ≠ [] →
      providerInit cfg (some dom) = v) ∧
    (assocGet dom.cssVars cfg.cssVar = none →
      providerInit cfg (some dom) = cfg.defaultValue) ∧
    (assocGet dom.cssVars cfg.cssVar = some [] →
      providerInit cfg (some dom) = cfg.defaultValue) := by
  refine ⟨rfl, rfl, ?_, ?_, ?_⟩
  · intro v hv hne
    simp [providerInit, getPropertyValue, hv, hne]
  · intro hv
    simp [providerInit, getPropertyValue, hv]
  · intro hv
    simp [providerInit, getPropertyValue, hv]

/-- Witness for C4: a primed hook `--sw = 300` seeds `300`; an absent hook
seeds the default `280`. -/
theorem presentation_always_string_witness :
    providerInit cfgSW (some ⟨[(("--sw").toList, ("300").toList)], []⟩) = ("300").toList ∧
    providerInit cfgSW (some ⟨[], []⟩) = ("280").toList :=
  ⟨(presentation_always_string cfgSW ⟨[(("--sw").toList, ("300").toList)], []⟩ none).2.2.1
      (("300").toList) (by decide) (by decide),
   (presentation_always_string cfgSW ⟨[], []⟩ none).2.2.2.1 (by decide)⟩

/-- C9: either read hook invoked outside an enclosing Provider fails
synchronously with the configuration error, whose message contains the
descriptor's cookie key; no fallback value is returned. -/
theorem missing_provider_error (cfg : PrehydrateValueConfig) :
    useValueHook cfg none = Except.error (contextError cfg) ∧
    useHydratedValueHook cfg none = Except.error (contextError cfg) ∧
    cfg.cookie <:+: contextError cfg ∧
    (∀ st, useValueHook cfg none ≠ Except.ok st) ∧
    (∀ r, useHydratedValueHook cfg none ≠ Except.ok r) := by
  refine ⟨rfl, rfl,
    ⟨("useValue/useHydratedValue must be used within a <Provider> for \"").toList,
     ("\"").toList, rfl⟩, ?_, ?_⟩
  · intro st h
    exact Except.noConfusion h
  · intro r h
    exact Except.noConfusion h

/-- Witness for C9 at the concrete descriptor `cfgSW`. -/
theorem missing_provider_error_witness :
    useValueHook cfgSW none = Except.error (contextError cfgSW) ∧
    (("sw").toList <:+: contextError cfgSW) :=
  ⟨(missing_provider_error cfgSW).1, (missing_provider_error cfgSW).2.2.1⟩

set_option maxRecDepth 200000 in
/-- C10: for the empty descriptor list the synthesizer still returns without
error the well-formed self-invoking routine — the fixed header (containing
the single `document.cookie` read and the definition of `f`) followed
directly by the footer, with zero `s.setProperty` calls — and executing it
changes no CSS variable. -/
theorem empty_descriptor_script (cookieStr : List Char)
    (cssVars : List (List Char × List Char)) :
    generatePrehydrateScript [] = scriptHeader ++ scriptFooter ∧
    countOccur (("document.cookie").toList) (generatePrehydrateScript []) = 1 ∧
    countOccur (("s.setProperty(").toList) (generatePrehydrateScript []) = 0 ∧
    runPrehydrateScript [] cookieStr cssVars = cssVars := by
  refine ⟨by simp [generatePrehydrateScript, joinSep], ?_, ?_, rfl⟩
  · decide
  · decide

lemma prefix_of_append_of_le (p a b : List Char) (h : p <+: a ++ b)
    (hl : p.length ≤ a.length) : p <+: a :=
  List.prefix_of_prefix_length_le h (List.prefix_append a b) hl

/-- Appending distributes over the occurrence count when every match starting
in the left part fits inside the left part. -/
lemma countOccur_append_of_fit (pat a b : List Char)
    (h : ∀ j, j < a.length → pat <+: ((a ++ b).drop j) → j + pat.length ≤ a.length) :
    countOccur pat (a ++ b) = countOccur pat a + countOccur pat b := by
  induction a with
  | nil => simp [countOccur]
  | cons c rest ih =>
    have hiff : pat <+: (c :: (rest ++ b)) ↔ pat <+: (c :: rest) := by
      constructor
      · intro hq
        have hfit := h 0 (by simp) (by simpa using hq)
        exact prefix_of_append_of_le pat (c :: rest) b (by simpa using hq) (by simpa using hfit)
      · intro hp
        simpa using hp.trans (List.prefix_append (c :: rest) b)
    have hbool : pat.isPrefixOf (c :: (rest ++ b)) = pat.isPrefixOf (c :: rest) := by
      rw [Bool.eq_iff_iff, isPrefixOf_eq_true_iff, isPrefixOf_eq_true_iff]
      exact hiff
    have h' : ∀ j, j < rest.length → pat <+: ((rest ++ b).drop j) → j + pat.length ≤ rest.length := by
      intro j hj hp
      have := h (j + 1) (by simp; omega) (by simpa using hp)
      simp only [List.length_cons] at this
      omega
    rw [List.cons_append]
    simp only [countOccur]
    rw [hbool, ih h', Nat.add_assoc]

/-- Occurrence counting splits before a character that the pattern does not
contain: no match can cross the boundary. -/
lemma countOccur_append_cons (pat x y : List Char) (ch : Char) (hch : ch ∉ pat) :
    countOccur pat (x ++ ch :: y) = countOccur pat x + countOccur pat (ch :: y) := by
  apply countOccur_append_of_fit
  intro j hj hp
  by_contra hover
  push_neg at hover
  have hk : x.length - j < pat.length := by omega
  have hjk : j + (x.length - j) < (x ++ ch :: y).length := by
    simp only [List.length_append, List.length_cons]
    omega
  have hg := hp.getElem hk
  rw [ List.getElem_drop] at hg
  have hq1 : (x ++ ch :: y)[j + (x.length - j)]? = some ((x ++ ch :: y)[j + (x.length - j)]) :=
    List.getElem?_eq_getElem hjk
  have hq2 : (x ++ ch :: y)[j + (x.length - j)]? = some ch := by
    have hx : j + (x.length - j) = x.length := by omega
    rw [hx, List.getElem?_append_right (Nat.le_refl x.length)]
    simp
  have hce : (x ++ ch :: y)[j + (x.length - j)] = ch := by
    rw [hq1] at hq2
    exact Option.some.inj hq2
  rw [hce] at hg
  exact hch (hg ▸ List.getElem_mem hk)

/-- A leading character absent from a nonempty pattern contributes no match. -/
lemma countOccur_cons_of_not_mem (pat : List Char) (hne : pat ≠ []) (ch : Char)
    (hch : ch ∉ pat) (z : List Char) :
    countOccur pat (ch :: z) = countOccur pat z := by
  cases pat with
  | nil => exact absurd rfl hne
  | cons a p' =>
    have ha : ¬ a = ch := fun h => hch (h ▸ List.mem_cons_self a p')
    have hb : (a :: p').isPrefixOf (ch :: z) = false := by
      simp [List.isPrefixOf, ha]
    simp [countOccur, hb]

/-- Occurrence counting splits after a terminating character that the
pattern does not contain. -/
lemma countOccur_append_concat (pat x y : List Char) (ch : Char) (hne : pat ≠ [])
    (hch : ch ∉ pat) :
    countOccur pat ((x ++ [ch]) ++ y) = countOccur pat (x ++ [ch]) + countOccur pat y := by
  have h1 : (x ++ [ch]) ++ y = x ++ ch :: y := by simp
  rw [h1, countOccur_append_cons pat x y ch hch, countOccur_cons_of_not_mem pat hne ch hch y]
  have h2 : x ++ [ch] = x ++ ch :: ([] : List Char) := rfl
  rw [h2, countOccur_append_cons pat x ([] : List Char) ch hch,
    countOccur_cons_of_not_mem pat hne ch hch []]
  simp [countOccur]

/-- All occurrences of a quote-free pattern in a setter lie in its four
literal chunks, provided the three interpolated fields are free of the
pattern: the surrounding `"` characters stop any crossing match. -/
lemma countOccur_setterOf (pat : List Char) (cfg : PrehydrateValueConfig)
    (hne : pat ≠ []) (hq : '"' ∉ pat)
    (h1 : countOccur pat cfg.cssVar = 0) (h2 : countOccur pat cfg.cookie = 0)
    (h3 : countOccur pat cfg.defaultValue = 0) :
    countOccur pat (setterOf cfg)
      = countOccur pat (("s.setProperty(\"").toList) + countOccur pat ((",f(\"").toList)
        + countOccur pat ((",\"").toList) + countOccur pat (("))").toList) := by
  have hA : ("s.setProperty(\"").toList = ("s.setProperty(").toList ++ ['"'] := by decide
  have hB : ("\",f(\"").toList = '"' :: (",f(\"").toList := by decide
  have hB2 : (",f(\"").toList = (",f(").toList ++ ['"'] := by decide
  have hC : ("\",\"").toList = '"' :: (",\"").toList := by decide
  have hC2 : (",\"").toList = (",").toList ++ ['"'] := by decide
  have hD : ("\"))").toList = '"' :: ("))").toList := by decide
  simp only [setterOf, List.append_assoc]
  rw [hA, hB, hC, hD]
  simp only [List.cons_append]
  rw [countOccur_append_concat pat (("s.setProperty(").toList) _ '"' hne hq]
  rw [countOccur_append_cons pat cfg.cssVar _ '"' hq,
    countOccur_cons_of_not_mem pat hne '"' hq]
  rw [hB2]
  rw [countOccur_append_concat pat ((",f(").toList) _ '"' hne hq]
  rw [countOccur_append_cons pat cfg.cookie _ '"' hq,
    countOccur_cons_of_not_mem pat hne '"' hq]
  rw [hC2]
  rw [countOccur_append_concat pat ((",").toList) _ '"' hne hq]
  rw [countOccur_append_cons pat cfg.defaultValue _ '"' hq,
    countOccur_cons_of_not_mem pat hne '"' hq]
  rw [h1, h2, h3]
  omega

/-- Occurrence count of a `;`-free pattern in `;`-joined segments of equal
individual count. -/
lemma countOccur_joinSep (pat : List Char) (hne : pat ≠ []) (hsemi : ';' ∉ pat)
    (q : Nat) : ∀ (l : List (List Char)), (∀ s ∈ l, countOccur pat s = q) →
    countOccur pat (joinSep [';'] l) = q * l.length := by
  intro l
  induction l with
  | nil =>
    intro _
    simp [joinSep, countOccur]
  | cons x t ih =>
    intro hall
    cases t with
    | nil =>
      simp only [joinSep, List.length_cons, List.length_nil]
      rw [hall x (by simp)]
      omega
    | cons y t' =>
      have hx : joinSep [';'] (x :: y :: t') = x ++ ';' :: joinSep [';'] (y :: t') := by
        simp [joinSep]
      rw [hx, countOccur_append_cons pat x _ ';' hsemi,
        countOccur_cons_of_not_mem pat hne ';' hsemi,
        hall x (by simp), ih (fun s hs => hall s (by simp [hs]))]
      simp only [List.length_cons]
      ring

set_option maxRecDepth 400000 in
lemma scriptHeader_concat :
    scriptHeader = ("(function()\x7bvar c=\"; \"+document.cookie,s=document.documentElement.style,f=function(n,d)\x7bvar p=\"; \"+n+\"=\",i=c.indexOf(p);if(i<0)return d;var j=c.indexOf(\";\",i+1);return c.substring(i+p.length,j<0?c.length:j)\x7d").toList ++ [';'] := by
  decide

lemma scriptFooter_cons : scriptFooter = '\x7d' :: ("())").toList := by decide

/-- Occurrence count of a pattern avoiding `"`, `;` and `}` in the whole
synthesized script, given a uniform per-setter count `q`. -/
lemma countOccur_script (pat : List Char) (hne : pat ≠ [])
    (hsemi : ';' ∉ pat) (hbrace : '\x7d' ∉ pat) (q : Nat)
    (configs : List PrehydrateValueConfig)
    (hsetter : ∀ c ∈ configs, countOccur pat (setterOf c) = q) :
    countOccur pat (generatePrehydrateScript configs)
      = countOccur pat scriptHeader + q * configs.length
        + countOccur pat (("())").toList) := by
  have hshape : generatePrehydrateScript configs
      = scriptHeader ++ (joinSep [';'] (configs.map setterOf) ++ scriptFooter) := by
    simp [generatePrehydrateScript, List.append_assoc]
  have hmap : ∀ s ∈ configs.map setterOf, countOccur pat s = q := by
    intro s hs
    obtain ⟨c, hc, rfl⟩ := List.mem_map.mp hs
    exact hsetter c hc
  rw [hshape, scriptHeader_concat, scriptFooter_cons,
    countOccur_append_concat pat _ _ ';' hne hsemi,
    countOccur_append_cons pat _ _ '\x7d' hbrace,
    countOccur_cons_of_not_mem pat hne '\x7d' hbrace,
    countOccur_joinSep pat hne hsemi q _ hmap]
  simp only [List.length_map]
  omega

set_option maxRecDepth 400000 in
/-- C6: for N descriptors whose fields do not themselves contain the counted
fragments, the synthesized routine text contains exactly one occurrence of the
persisted-store read `document.cookie`, exactly N hook-set calls
`s.setProperty(`, and exactly one definition `f=function(` of the shared
lookup: the lookup routine and normalized buffer are emitted once regardless
of N, and each additional descriptor contributes exactly one additional
assignment. -/
theorem script_single_read_and_n_setters (configs : List PrehydrateValueConfig)
    (h : ∀ c ∈ configs, configClean c) :
    countOccur (("document.cookie").toList) (generatePrehydrateScript configs) = 1 ∧
    countOccur (("s.setProperty(").toList) (generatePrehydrateScript configs) = configs.length ∧
    countOccur (("f=function(").toList) (generatePrehydrateScript configs) = 1 := by
  refine ⟨?_, ?_, ?_⟩
  · have hset : ∀ c ∈ configs, countOccur (("document.cookie").toList) (setterOf c) = 0 := by
      intro c hc
      rw [countOccur_setterOf _ c (by decide) (by decide)
        ((h c hc).1.1) ((h c hc).2.1.1) ((h c hc).2.2.1)]
      decide
    rw [countOccur_script _ (by decide) (by decide) (by decide) 0 configs hset]
    rw [(by decide : countOccur (("document.cookie").toList) scriptHeader = 1),
      (by decide : countOccur (("document.cookie").toList) (("())").toList) = 0)]
    omega
  · have hset : ∀ c ∈ configs, countOccur (("s.setProperty(").toList) (setterOf c) = 1 := by
      intro c hc
      rw [countOccur_setterOf _ c (by decide) (by decide)
        ((h c hc).1.2.1) ((h c hc).2.1.2.1) ((h c hc).2.2.2.1)]
      decide
    rw [countOccur_script _ (by decide) (by decide) (by decide) 1 configs hset]
    rw [(by decide : countOccur (("s.setProperty(").toList) scriptHeader = 0),
      (by decide : countOccur (("s.setProperty(").toList) (("())").toList) = 0)]
    omega
  · have hset : ∀ c ∈ configs, countOccur (("f=function(").toList) (setterOf c) = 0 := by
      intro c hc
      rw [countOccur_setterOf _ c (by decide) (by decide)
        ((h c hc).1.2.2) ((h c hc).2.1.2.2) ((h c hc).2.2.2.2)]
      decide
    rw [countOccur_script _ (by decide) (by decide) (by decide) 0 configs hset]
    rw [(by decide : countOccur (("f=function(").toList) scriptHeader = 1),
      (by decide : countOccur (("f=function(").toList) (("())").toList) = 0)]
    omega

set_option maxRecDepth 400000 in
/-- Witness for C6 with two concrete descriptors: one store read, two setter
calls, one shared lookup definition. -/
theorem script_single_read_and_n_setters_witness :
    countOccur (("document.cookie").toList)
      (generatePrehydrateScript
        [cfgSW, ⟨("theme").toList, ("--theme").toList, ("dark").toList⟩]) = 1 ∧
    countOccur (("s.setProperty(").toList)
      (generatePrehydrateScript
        [cfgSW, ⟨("theme").toList, ("--theme").toList, ("dark").toList⟩]) = 2 ∧
    countOccur (("f=function(").toList)
      (generatePrehydrateScript
        [cfgSW, ⟨("theme").toList, ("--theme").toList, ("dark").toList⟩]) = 1 :=
  script_single_read_and_n_setters
    [cfgSW, ⟨("theme").toList, ("--theme").toList, ("dark").toList⟩] (by decide)

lemma hexDigitChar_mem (n : Nat) : hexDigitChar n ∈ hexDigits := by
  unfold hexDigitChar
  rcases Nat.lt_or_ge n hexDigits.length with h | h
  · rw [List.getD_eq_getElem _ _ h]
    exact List.getElem_mem h
  · rw [List.getD_eq_default _ _ h]
    decide

lemma encodeURIComponent_cons (c : Char) (t : List Char) :
    encodeURIComponent (c :: t)
      = (if isUnreservedChar c then [c] else ((utf8Bytes c).map percentByte).flatten)
        ++ encodeURIComponent t := by
  simp [encodeURIComponent]

/-- Every character of an encoded value is an unreserved character, `%`, or an
uppercase hexadecimal digit. -/
lemma mem_encodeURIComponent (x : List Char) (ch : Char) (h : ch ∈ encodeURIComponent x) :
    isUnreservedChar ch = true ∨ ch = '%' ∨ ch ∈ hexDigits := by
  unfold encodeURIComponent at h
  rw [List.mem_flatten] at h
  obtain ⟨l, hl, hch⟩ := h
  rw [List.mem_map] at hl
  obtain ⟨c, hc, rfl⟩ := hl
  by_cases hu : isUnreservedChar c
  · rw [if_pos hu] at hch
    simp only [List.mem_singleton] at hch
    exact Or.inl (hch ▸ hu)
  · rw [if_neg hu] at hch
    rw [List.mem_flatten] at hch
    obtain ⟨pb, hpb, hch⟩ := hch
    rw [List.mem_map] at hpb
    obtain ⟨b, hb, rfl⟩ := hpb
    simp only [percentByte, List.mem_cons, List.not_mem_nil, or_false] at hch
    rcases hch with rfl | rfl | rfl
    · exact Or.inr (Or.inl rfl)
    · exact Or.inr (Or.inr (hexDigitChar_mem _))
    · exact Or.inr (Or.inr (hexDigitChar_mem _))

/-- The encoded value never contains the store delimiters `;` and `=`. -/
lemma encode_no_delims (x : List Char) :
    ';' ∉ encodeURIComponent x ∧ '=' ∉ encodeURIComponent x := by
  constructor
  · intro h
    rcases mem_encodeURIComponent x ';' h with hu | hp | hx
    · exact absurd hu (by decide)
    · exact absurd hp (by decide)
    · exact absurd hx (by decide)
  · intro h
    rcases mem_encodeURIComponent x '=' h with hu | hp | hx
    · exact absurd hu (by decide)
    · exact absurd hp (by decide)
    · exact absurd hx (by decide)

/-- Strings of unreserved characters are encoded to themselves. -/
lemma encode_unreserved (x : List Char) (h : ∀ ch ∈ x, isUnreservedChar ch = true) :
    encodeURIComponent x = x := by
  induction x with
  | nil => rfl
  | cons c t ih =>
    rw [encodeURIComponent_cons, if_pos (h c (List.mem_cons_self c t)),
      ih (fun ch hch => h ch (List.mem_cons_of_mem c hch))]
    rfl

lemma takeWhile_append_stop (p : Char → Bool) (u : List Char)
    (hu : ∀ c ∈ u, p c = true) (stop : Char) (hstop : p stop = false) (rest : List Char) :
    (u ++ stop :: rest).takeWhile p = u := by
  induction u with
  | nil => simp [List.takeWhile_cons, hstop]
  | cons c t ih =>
    simp [List.takeWhile_cons, hu c (by simp),
      ih (fun c' hc' => hu c' (List.mem_cons_of_mem c hc'))]

lemma dropWhile_append_stop (p : Char → Bool) (u : List Char)
    (hu : ∀ c ∈ u, p c = true) (stop : Char) (hstop : p stop = false) (rest : List Char) :
    (u ++ stop :: rest).dropWhile p = stop :: rest := by
  induction u with
  | nil => simp [List.dropWhile_cons, hstop]
  | cons c t ih =>
    simp [List.dropWhile_cons, hu c (by simp),
      ih (fun c' hc' => hu c' (List.mem_cons_of_mem c hc'))]

lemma assocGet_assocSet (m : List (List Char × List Char)) (k v : List Char) :
    assocGet (assocSet m k v) k = some v := by
  induction m with
  | nil => simp [assocSet, assocGet]
  | cons e rest ih =>
    obtain ⟨k', v'⟩ := e
    by_cases hk : k' = k
    · simp [assocSet, assocGet, hk]
    · simp [assocSet, assocGet, hk, ih]

/-- Effect of the cookie write of `set` on the jar: the entry named
`cfg.cookie` is created or updated with the percent-encoded value; the
attribute segments are cut off at the first `;`. -/
lemma cookieAssign_setCookieString (jar : List (List Char × List Char))
    (cookie x : List Char) (hc1 : ';' ∉ cookie) (hc2 : '=' ∉ cookie) :
    cookieAssign jar (setCookieString cookie x)
      = assocSet jar cookie (encodeURIComponent x) := by
  have hshape : setCookieString cookie x
      = (cookie ++ '=' :: encodeURIComponent x)
        ++ ';' :: ("path=/;max-age=31536000;SameSite=Lax").toList := by
    unfold setCookieString
    rw [(by decide : (";path=/;max-age=31536000;SameSite=Lax").toList
      = ';' :: ("path=/;max-age=31536000;SameSite=Lax").toList)]
  have hu : ∀ c ∈ cookie ++ '=' :: encodeURIComponent x, (c != ';') = true := by
    intro c hcm
    simp only [List.mem_append, List.mem_cons] at hcm
    rcases hcm with hcm | rfl | hcm
    · simp
      intro h
      exact hc1 (h ▸ hcm)
    · decide
    · simp
      intro h
      exact (encode_no_delims x).1 (h ▸ hcm)
  have hu2 : ∀ c ∈ cookie, (c != '=') = true := by
    intro c hcm
    simp
    intro h
    exact hc2 (h ▸ hcm)
  simp only [cookieAssign]
  rw [hshape, takeWhile_append_stop _ _ hu ';' (by decide) _]
  rw [takeWhile_append_stop _ cookie hu2 '=' (by decide) _,
    dropWhile_append_stop _ cookie hu2 '=' (by decide) _]
  rfl

lemma splitOnChar_no_sep (ch : Char) (u : List Char) (hu : ch ∉ u) :
    splitOnChar ch u = [u] := by
  induction u with
  | nil => rfl
  | cons c t ih =>
    have hc : ¬ c = ch := by intro h; exact hu (by simp [h])
    have ht : ch ∉ t := fun hm => hu (List.mem_cons_of_mem c hm)
    simp [splitOnChar, hc, ih ht]

lemma splitOnChar_sep_append (ch : Char) (u : List Char) (hu : ch ∉ u) (rest : List Char) :
    splitOnChar ch (u ++ ch :: rest) = u :: splitOnChar ch rest := by
  induction u with
  | nil => simp [splitOnChar]
  | cons c t ih =>
    have hc : ¬ c = ch := by intro h; exact hu (by simp [h])
    have ht : ch ∉ t := fun hm => hu (List.mem_cons_of_mem c hm)
    simp [splitOnChar, hc, ih ht]

/-- C2 counterexample: after `set ";"` the in-memory state and the CSS
variable hold `";"`, but the persisted store under `sw` holds the
percent-encoded `"%3B"`, not `";"`: the claim's third location differs from
`x` for `x = ";"`. -/
theorem set_triple_write_counterexample :
    (setCell cfgSW ⟨("280").toList, false⟩ ⟨[], []⟩ ((";").toList)).1.currentValue
      = (";").toList ∧
    assocGet (setCell cfgSW ⟨("280").toList, false⟩ ⟨[], []⟩ ((";").toList)).2.cssVars
      (("--sw").toList) = some ((";").toList) ∧
    assocGet (setCell cfgSW ⟨("280").toList, false⟩ ⟨[], []⟩ ((";").toList)).2.jar
      (("sw").toList) ≠ some ((";").toList) ∧
    assocGet (setCell cfgSW ⟨("280").toList, false⟩ ⟨[], []⟩ ((";").toList)).2.jar
      (("sw").toList) = some (("%3B").toList) := by
  refine ⟨rfl, by decide, by decide, by decide⟩

/-- C2 (amended): after `set x` returns, the in-memory state and the pre-paint
hook equal `x`, and the persisted store under `storeKey` holds the
percent-encoding of `x` — hence all three equal `x` exactly when `x` consists
of unreserved characters. -/
theorem set_triple_write (cfg : PrehydrateValueConfig) (st : CellState) (dom : Dom)
    (x : List Char) (hc1 : ';' ∉ cfg.cookie) (hc2 : '=' ∉ cfg.cookie) :
    (setCell cfg st dom x).1.currentValue = x ∧
    assocGet (setCell cfg st dom x).2.cssVars cfg.cssVar = some x ∧
    assocGet (setCell cfg st dom x).2.jar cfg.cookie = some (encodeURIComponent x) ∧
    ((∀ ch ∈ x, isUnreservedChar ch = true) →
      assocGet (setCell cfg st dom x).2.jar cfg.cookie = some x) := by
  refine ⟨rfl, assocGet_assocSet _ _ _, ?_, ?_⟩
  · show assocGet (cookieAssign dom.jar (setCookieString cfg.cookie x)) cfg.cookie = _
    rw [cookieAssign_setCookieString dom.jar cfg.cookie x hc1 hc2]
    exact assocGet_assocSet _ _ _
  · intro hun
    show assocGet (cookieAssign dom.jar (setCookieString cfg.cookie x)) cfg.cookie = _
    rw [cookieAssign_setCookieString dom.jar cfg.cookie x hc1 hc2,
      encode_unreserved x hun]
    exact assocGet_assocSet _ _ _

/-- Witness for C2 (amended) at `x = "300"`. -/
theorem set_triple_write_witness :
    (setCell cfgSW ⟨("280").toList, false⟩ ⟨[], []⟩ (("300").toList)).1.currentValue
      = ("300").toList ∧
    assocGet (setCell cfgSW ⟨("280").toList, false⟩ ⟨[], []⟩ (("300").toList)).2.jar
      (("sw").toList) = some (("300").toList) :=
  ⟨(set_triple_write cfgSW ⟨("280").toList, false⟩ ⟨[], []⟩ (("300").toList)
      (by decide) (by decide)).1,
   (set_triple_write cfgSW ⟨("280").toList, false⟩ ⟨[], []⟩ (("300").toList)
      (by decide) (by decide)).2.2.2 (by decide)⟩

/-- C7 counterexample: the string written by `set` for key `sw`, value `300`
is not the claimed spaced format `sw=300; path=/; max-age=31536000;
SameSite=Lax` — the source writes no space after the semicolons. -/
theorem store_format_counterexample :
    setCookieString (("sw").toList) (("300").toList)
      ≠ ("sw=300; path=/; max-age=31536000; SameSite=Lax").toList ∧
    setCookieString (("sw").toList) (("300").toList)
      = ("sw=300;path=/;max-age=31536000;SameSite=Lax").toList := by
  refine ⟨by decide, by decide⟩

/-- C7 (amended): the string written to the persisted store is exactly
`<storeKey>=<percent-encoded value>;path=/;max-age=31536000;SameSite=Lax` —
the same attributes as claimed but with no space after each `;` — so its
`;`-separated segments are the pair and the three attributes. -/
theorem store_write_format (cookie x : List Char) (hc : ';' ∉ cookie) :
    setCookieString cookie x
      = cookie ++ '=' :: encodeURIComponent x
        ++ (";path=/;max-age=31536000;SameSite=Lax").toList ∧
    splitOnChar ';' (setCookieString cookie x)
      = [cookie ++ '=' :: encodeURIComponent x, ("path=/").toList,
         ("max-age=31536000").toList, ("SameSite=Lax").toList] := by
  refine ⟨rfl, ?_⟩
  have hu : ';' ∉ cookie ++ '=' :: encodeURIComponent x := by
    simp only [List.mem_append, List.mem_cons, not_or]
    exact ⟨hc, by decide, (encode_no_delims x).1⟩
  have hshape : setCookieString cookie x
      = (cookie ++ '=' :: encodeURIComponent x)
        ++ ';' :: (("path=/").toList
          ++ ';' :: (("max-age=31536000").toList ++ ';' :: ("SameSite=Lax").toList)) := by
    unfold setCookieString
    rw [(by decide : (";path=/;max-age=31536000;SameSite=Lax").toList
      = ';' :: (("path=/").toList
        ++ ';' :: (("max-age=31536000").toList ++ ';' :: ("SameSite=Lax").toList)))]
  rw [hshape, splitOnChar_sep_append ';' _ hu,
    splitOnChar_sep_append ';' _ (by decide),
    splitOnChar_sep_append ';' _ (by decide),
    splitOnChar_no_sep ';' _ (by decide)]

/-- Witness for C7 (amended) at key `sw`, value `300`. -/
theorem store_write_format_witness :
    splitOnChar ';' (setCookieString (("sw").toList) (("300").toList))
      = [("sw=300").toList, ("path=/").toList, ("max-age=31536000").toList,
         ("SameSite=Lax").toList] := by
  have h := (store_write_format (("sw").toList) (("300").toList) (by decide)).2
  rw [h]
  decide

set_option maxRecDepth 200000 in
/-- C5 counterexample: the round trip is not the identity for every string
`x`: `set ";"` stores the encoded `"%3B"`, which the lookup returns verbatim
(no decoding), and `set ""` stores an empty value, so the fresh Scope falls
back to the default `"280"`. -/
theorem round_trip_counterexample :
    roundTrip cfgSW ((";").toList) ≠ (";").toList ∧
    roundTrip cfgSW ((";").toList) = ("%3B").toList ∧
    roundTrip cfgSW [] ≠ [] ∧
    roundTrip cfgSW [] = ("280").toList := by
  refine ⟨by decide, by decide, by decide, by decide⟩

/-- C5 (amended): for a nonempty value of unreserved characters and a
delimiter-free store key, executing the synthesized routine against the store
buffer produced by a prior `set x` and initializing a fresh Scope from the
resulting pre-paint hook yields `currentValue = x`. -/
theorem round_trip_unreserved (cfg : PrehydrateValueConfig) (x : List Char)
    (hc1 : ';' ∉ cfg.cookie) (hc2 : '=' ∉ cfg.cookie) (hx : x ≠ [])
    (hxu : ∀ ch ∈ x, isUnreservedChar ch = true) :
    roundTrip cfg x = x := by
  have henc : encodeURIComponent x = x := encode_unreserved x hxu
  have hsem : ';' ∉ x := by
    intro hmem
    exact absurd (hxu ';' hmem) (by decide)
  have hwf : wfEntries ([] ++ (cfg.cookie, x) :: []) := by
    intro e he
    simp only [List.nil_append, List.mem_singleton] at he
    subst he
    exact ⟨hc1, hc2, hsem⟩
  have hfind : findCookie (renderCookieJar [(cfg.cookie, x)]) cfg.cookie cfg.defaultValue
      = x := by
    have h := findCookie_found [] [] cfg.cookie x cfg.defaultValue hwf (by simp) hc1 hc2
    simpa using h
  have hxe : x.isEmpty = false := by
    cases x with
    | nil => exact absurd rfl hx
    | cons a t => rfl
  simp only [roundTrip, setCell]
  rw [cookieAssign_setCookieString [] cfg.cookie x hc1 hc2, henc]
  simp only [assocSet, runPrehydrateScript, List.foldl]
  rw [hfind]
  simp [providerInit, getPropertyValue, assocGet, hxe]

/-- Witness for C5 (amended) at `x = "320"`. -/
theorem round_trip_unreserved_witness :
    roundTrip cfgSW (("320").toList) = ("320").toList :=
  round_trip_unreserved cfgSW (("320").toList) (by decide) (by decide) (by decide)
    (by decide)
